import Mathlib

/-!
Shallow embedding of the RBAC policy engine of
`backend/modules/base/policy/engine.py`: the configuration data model,
permission-string parsing and matching, recursive role-permission
resolution with a visited-set cycle guard, the flattened permission
cache, user-role extraction, the permission-check helpers, the
`require_permission` guard, and the configuration (re)load transition.
-/

namespace Policy

/-- One entry of the `roles` section of `roles.yaml`: a description and a
list of permission-rule strings (the Python code reads
`role.get("description", "")` and `role.get("permissions", [])`). -/
structure RoleDef where
  description : String := ""
  permissions : List String := []

/-- One entry of the `modules` section of `roles.yaml`. -/
structure ModuleDef where
  description : String := ""
  actions : List String := []

/-- The parsed `roles.yaml` configuration. Association lists model the
YAML mappings (`roles`, `hierarchy` — each entry reduced to its
`inherits` list —, `modules`, `defaults`); a missing section is the
empty list, matching `self._config.get(section, {})`. -/
structure Config where
  roles : List (String × RoleDef) := []
  hierarchy : List (String × List String) := []
  modules : List (String × ModuleDef) := []
  defaults : List (String × String) := []

/-- Python `s.split(sep, 1)` over a character list: the characters
before and after the first occurrence of `sep`, or `none` when `sep`
does not occur. -/
def splitFirst (sep : Char) : List Char → Option (List Char × List Char)
  | [] => none
  | c :: rest =>
      if c = sep then some ([], rest)
      else
        match splitFirst sep rest with
        | none => none
        | some (pre, post) => some (c :: pre, post)

/-- Python `s.split(sep)` over a character list: split at every
occurrence of `sep`; an empty input yields one empty field. -/
def splitAll (sep : Char) : List Char → List (List Char)
  | [] => [[]]
  | c :: rest =>
      match splitAll sep rest with
      | [] => [[]]
      | field :: fields =>
          if c = sep then [] :: field :: fields
          else (c :: field) :: fields

/-- Python `s.strip()`: remove leading and trailing whitespace. -/
def stripChars (cs : List Char) : List Char :=
  ((cs.dropWhile Char.isWhitespace).reverse.dropWhile Char.isWhitespace).reverse

/-- `PolicyEngine._parse_permission`: split `"module:action"` at the
first `":"` (Python `permission.split(":", 1)`); a string containing no
`":"` parses as `(permission, "*")`. -/
def parse_permission (permission : String) : String × String :=
  match splitFirst ':' permission.toList with
  | none => (permission, "*")
  | some (pre, post) => (String.mk pre, String.mk post)

/-- The comma-split, whitespace-trimmed action list of a parsed rule
action: `[a.strip() for a in rule_action.split(",")]`. -/
def allowed_actions (rule_action : String) : List String :=
  (splitAll ',' rule_action.toList).map (fun field => String.mk (stripChars field))

/-- `PolicyEngine._matches_permission`: decide whether one granted rule
matches a requested `(module, action)` pair, with `*` wildcards and a
comma-separated, whitespace-trimmed action list. -/
def matches_permission (rule module action : String) : Bool :=
  let rule_module := (parse_permission rule).1
  let rule_action := (parse_permission rule).2
  if rule_module == "*" && rule_action == "*" then true
  else if rule_module == module && rule_action == "*" then true
  else if rule_module == "*" && rule_action == action then true
  else if rule_module == module then
    (allowed_actions rule_action).contains action || (allowed_actions rule_action).contains "*"
  else false

/-- The matching rule as the specification words it (§4.3): the OR of
the four match cases over the parsed rule. Kept separate from
`matches_permission` so the two can be compared. -/
def matches_permission_spec (rule module action : String) : Bool :=
  let rule_module := (parse_permission rule).1
  let rule_action := (parse_permission rule).2
  (rule_module == "*" && rule_action == "*") ||
    (rule_module == module && rule_action == "*") ||
    (rule_module == "*" && rule_action == action) ||
    (rule_module == module &&
      ((allowed_actions rule_action).contains action ||
        (allowed_actions rule_action).contains "*"))

/-- Direct permissions of a role, as a set:
`roles.get(role_name, {}).get("permissions", [])` added element-wise. -/
def direct_permissions (cfg : Config) (role_name : String) : Finset String :=
  match List.lookup role_name cfg.roles with
  | none => ∅
  | some role => role.permissions.toFinset

/-- The set of role names that have a `hierarchy` entry. -/
def hierarchyDomain (cfg : Config) : Finset String :=
  (cfg.hierarchy.map Prod.fst).toFinset

theorem mem_of_lookup_eq_some {β : Type} {l : List (String × β)} {k : String} {v : β}
    (h : List.lookup k l = some v) : (k, v) ∈ l := by
  induction l with
  | nil => simp [List.lookup] at h
  | cons e t ih =>
      obtain ⟨a, b⟩ := e
      by_cases hk : k = a
      · subst hk
        simp [List.lookup] at h
        subst h
        exact List.mem_cons_self _ _
      · have hb : (k == a) = false := by simp [hk]
        simp [List.lookup, hb] at h
        exact List.mem_cons_of_mem _ (ih h)

theorem mem_hierarchyDomain_of_lookup {cfg : Config} {r : String} {ps : List String}
    (h : List.lookup r cfg.hierarchy = some ps) : r ∈ hierarchyDomain cfg := by
  have := mem_of_lookup_eq_some h
  simp only [hierarchyDomain, List.mem_toFinset]
  exact List.mem_map_of_mem Prod.fst this

theorem sdiff_insert_card_lt {s v : Finset String} {a : String}
    (ha : a ∈ s) (hv : a ∉ v) : (s \ insert a v).card < (s \ v).card := by
  have hsub : s \ insert a v ⊆ s \ v :=
    Finset.sdiff_subset_sdiff (Finset.Subset.refl s) (Finset.subset_insert a v)
  refine Finset.card_lt_card ((Finset.ssubset_iff_of_subset hsub).mpr ?_)
  refine ⟨a, Finset.mem_sdiff.mpr ⟨ha, hv⟩, ?_⟩
  simp

mutual

/-- The nested `get_all_permissions` of
`PolicyEngine._build_permission_cache`: the direct permissions of
`role_name` plus, when a hierarchy entry exists, the permissions
inherited through each listed parent; a role already in `visited`
contributes the empty set (the circular-inheritance guard). -/
def get_all_permissions (cfg : Config) (role_name : String) (visited : Finset String) :
    Finset String :=
  if hv : role_name ∈ visited then ∅
  else
    match hl : List.lookup role_name cfg.hierarchy with
    | none => direct_permissions cfg role_name
    | some parents =>
        direct_permissions cfg role_name ∪
          inherited_permissions cfg parents (insert role_name visited)
termination_by ((hierarchyDomain cfg \ visited).card, 0)
decreasing_by
  simp_wf
  exact Prod.Lex.left _ _ (sdiff_insert_card_lt (mem_hierarchyDomain_of_lookup hl) hv)

/-- The `for parent_role in hierarchy[role_name]["inherits"]` loop of
`get_all_permissions`: the union of the recursive resolutions of the
parents, each against the same `visited` set (every Python recursive
call receives `visited.copy()` of the caller's set). -/
def inherited_permissions (cfg : Config) (parents : List String) (visited : Finset String) :
    Finset String :=
  match parents with
  | [] => ∅
  | p :: rest =>
      get_all_permissions cfg p visited ∪ inherited_permissions cfg rest visited
termination_by ((hierarchyDomain cfg \ visited).card, parents.length + 1)
decreasing_by
  · simp_wf
    exact Prod.Lex.right _ (Nat.succ_pos _)
  · simp_wf
    exact Prod.Lex.right _ (Nat.lt_succ_self _)

end

theorem get_all_permissions_of_mem {cfg : Config} {r : String} {visited : Finset String}
    (hv : r ∈ visited) : get_all_permissions cfg r visited = ∅ := by
  rw [get_all_permissions]
  simp [hv]

theorem inherited_permissions_nil (cfg : Config) (visited : Finset String) :
    inherited_permissions cfg [] visited = ∅ := by
  rw [inherited_permissions]

theorem inherited_permissions_cons (cfg : Config) (p : String) (rest : List String)
    (visited : Finset String) :
    inherited_permissions cfg (p :: rest) visited =
      get_all_permissions cfg p visited ∪ inherited_permissions cfg rest visited := by
  rw [inherited_permissions]

theorem get_all_permissions_of_not_mem {cfg : Config} {r : String} {visited : Finset String}
    (hv : r ∉ visited) :
    get_all_permissions cfg r visited =
      direct_permissions cfg r ∪
        inherited_permissions cfg ((List.lookup r cfg.hierarchy).getD [])
          (insert r visited) := by
  rw [get_all_permissions]
  cases hl : List.lookup r cfg.hierarchy with
  | none => simp [hv, hl, inherited_permissions_nil]
  | some parents => simp [hv, hl]

/-- Step-indexed replica of `get_all_permissions`: `fuel` bounds the
recursion depth. It is used to state termination of the resolver (the
computation stabilizes once `fuel` exceeds the number of hierarchy
entries) and to evaluate the resolver on concrete configurations. -/
def get_all_permissions_fuel (cfg : Config) : Nat → String → Finset String → Finset String
  | 0, _, _ => ∅
  | fuel + 1, role_name, visited =>
    if role_name ∈ visited then ∅
    else
      match List.lookup role_name cfg.hierarchy with
      | none => direct_permissions cfg role_name
      | some parents =>
          direct_permissions cfg role_name ∪
            (parents.map (fun p =>
              get_all_permissions_fuel cfg fuel p (insert role_name visited))).foldr (· ∪ ·) ∅

theorem foldr_union_eq_inherited {cfg : Config} {fuel : Nat} {visited : Finset String}
    (parents : List String)
    (h : ∀ p ∈ parents,
      get_all_permissions_fuel cfg fuel p visited = get_all_permissions cfg p visited) :
    (parents.map (fun p => get_all_permissions_fuel cfg fuel p visited)).foldr (· ∪ ·) ∅ =
      inherited_permissions cfg parents visited := by
  induction parents with
  | nil => simp [inherited_permissions_nil]
  | cons p rest ih =>
      rw [inherited_permissions_cons]
      simp only [List.map_cons, List.foldr_cons]
      rw [h p (List.mem_cons_self _ _), ih (fun q hq => h q (List.mem_cons_of_mem _ hq))]

theorem get_all_permissions_fuel_eq {cfg : Config} :
    ∀ {fuel : Nat} {role_name : String} {visited : Finset String},
      (hierarchyDomain cfg \ visited).card < fuel →
      get_all_permissions_fuel cfg fuel role_name visited =
        get_all_permissions cfg role_name visited := by
  intro fuel
  induction fuel with
  | zero => intro r v h; omega
  | succ fuel ih =>
      intro r v h
      by_cases hv : r ∈ v
      · rw [get_all_permissions_of_mem hv]
        simp [get_all_permissions_fuel, hv]
      · rw [get_all_permissions_of_not_mem hv]
        cases hl : List.lookup r cfg.hierarchy with
        | none =>
            simp [get_all_permissions_fuel, hv, hl, inherited_permissions_nil]
        | some parents =>
            have hmem : r ∈ hierarchyDomain cfg := mem_hierarchyDomain_of_lookup hl
            have hcard : (hierarchyDomain cfg \ insert r v).card < fuel := by
              have := sdiff_insert_card_lt hmem hv
              omega
            simp only [get_all_permissions_fuel, hv, if_false, hl, Option.getD_some]
            rw [foldr_union_eq_inherited parents (fun p _ => ih hcard)]

/-- Fuel that always suffices for a top-level resolution: one more than
the number of hierarchy entries. -/
def cacheFuel (cfg : Config) : Nat := (hierarchyDomain cfg).card + 1

theorem get_all_permissions_eq_fuel (cfg : Config) (role_name : String) :
    get_all_permissions cfg role_name ∅ =
      get_all_permissions_fuel cfg (cacheFuel cfg) role_name ∅ := by
  refine (get_all_permissions_fuel_eq ?_).symm
  simp [cacheFuel]

/-- `PolicyEngine._build_permission_cache`: the `for role_name in roles`
loop, producing one resolved permission set per declared role. -/
def permission_cache (cfg : Config) : List (String × Finset String) :=
  cfg.roles.map (fun entry => (entry.1, get_all_permissions cfg entry.1 ∅))

/-- `PolicyEngine.get_role_permissions`:
`self._permission_cache.get(role, set())`. -/
def get_role_permissions (cfg : Config) (role : String) : Finset String :=
  (List.lookup role (permission_cache cfg)).getD ∅

/-- The loop of `PolicyEngine.check_permission`, phrased over a cache
value: some role of `user_roles` has some cached rule that matches the
parsed permission. -/
def check_permission_cache (cache : List (String × Finset String))
    (user_roles : List String) (permission : String) : Bool :=
  user_roles.any (fun role =>
    decide (∃ perm ∈ (List.lookup role cache).getD ∅,
      matches_permission perm (parse_permission permission).1
        (parse_permission permission).2 = true))

/-- `PolicyEngine.check_permission`: true iff some rule of some of the
user's roles matches the requested permission. -/
def check_permission (cfg : Config) (user_roles : List String) (permission : String) : Bool :=
  check_permission_cache (permission_cache cfg) user_roles permission

/-- Replica of `permission_cache` built through the step-indexed
resolver, for evaluation on concrete configurations. -/
def permission_cache_fuel (cfg : Config) : List (String × Finset String) :=
  cfg.roles.map (fun entry => (entry.1, get_all_permissions_fuel cfg (cacheFuel cfg) entry.1 ∅))

theorem permission_cache_eq_fuel (cfg : Config) :
    permission_cache cfg = permission_cache_fuel cfg := by
  unfold permission_cache permission_cache_fuel
  congr 1
  funext entry
  rw [get_all_permissions_eq_fuel]

theorem get_role_permissions_eq_fuel (cfg : Config) (role : String) :
    get_role_permissions cfg role = (List.lookup role (permission_cache_fuel cfg)).getD ∅ := by
  rw [get_role_permissions, permission_cache_eq_fuel]

theorem check_permission_eq_fuel (cfg : Config) (user_roles : List String) (permission : String) :
    check_permission cfg user_roles permission =
      check_permission_cache (permission_cache_fuel cfg) user_roles permission := by
  rw [check_permission, permission_cache_eq_fuel]

theorem lookup_map_fst_eq_some {α β : Type} (f : String → β) :
    ∀ (l : List (String × α)) (k : String), k ∈ l.map Prod.fst →
      List.lookup k (l.map (fun e => (e.1, f e.1))) = some (f k) := by
  intro l
  induction l with
  | nil => simp
  | cons e t ih =>
      intro k hk
      by_cases hke : k = e.1
      · subst hke
        simp [List.lookup]
      · have hb : (k == e.1) = false := by simp [hke]
        have hkt : k ∈ t.map Prod.fst := by
          simp only [List.map_cons, List.mem_cons] at hk
          tauto
        simp only [List.map_cons, List.lookup, hb]
        exact ih k hkt

theorem lookup_map_fst_eq_none {α β : Type} (f : String → β) :
    ∀ (l : List (String × α)) (k : String), k ∉ l.map Prod.fst →
      List.lookup k (l.map (fun e => (e.1, f e.1))) = none := by
  intro l
  induction l with
  | nil => simp
  | cons e t ih =>
      intro k hk
      simp only [List.map_cons, List.mem_cons, not_or] at hk
      have hb : (k == e.1) = false := by simp [hk.1]
      simp only [List.map_cons, List.lookup, hb]
      exact ih k hk.2

theorem get_role_permissions_of_mem {cfg : Config} {r : String}
    (h : r ∈ cfg.roles.map Prod.fst) :
    get_role_permissions cfg r = get_all_permissions cfg r ∅ := by
  rw [get_role_permissions, permission_cache,
    lookup_map_fst_eq_some (fun n => get_all_permissions cfg n ∅) cfg.roles r h]
  rfl

theorem get_role_permissions_of_not_mem {cfg : Config} {r : String}
    (h : r ∉ cfg.roles.map Prod.fst) :
    get_role_permissions cfg r = ∅ := by
  rw [get_role_permissions, permission_cache,
    lookup_map_fst_eq_none (fun n => get_all_permissions cfg n ∅) cfg.roles r h]
  rfl

/-- `PolicyEngine.get_default_role`: `defaults.get(context, "viewer")`. -/
def get_default_role (cfg : Config) (context : String := "new_user") : String :=
  (List.lookup context cfg.defaults).getD "viewer"

/-- `PolicyEngine.list_roles`: name and description of every declared
role. -/
def list_roles (cfg : Config) : List (String × String) :=
  cfg.roles.map (fun entry => (entry.1, entry.2.description))

/-- `PolicyEngine.list_modules`: name, description and actions of every
declared module. -/
def list_modules (cfg : Config) : List (String × String × List String) :=
  cfg.modules.map (fun entry => (entry.1, entry.2.description, entry.2.actions))

/-- The value of a duck-typed `roles` attribute once called (when
callable): a single string or a list of role names. -/
inductive RolesValue
  | str (s : String)
  | list (names : List String)

/-- A duck-typed `roles` attribute: a plain value or a zero-argument
callable returning one. -/
inductive RolesAttr
  | value (v : RolesValue)
  | callable (f : Unit → RolesValue)

/-- `roles = roles() if callable(roles) else roles`. -/
def RolesAttr.resolve : RolesAttr → RolesValue
  | .value v => v
  | .callable f => f ()

/-- A user object as `engine.py` probes it: an `is_authenticated` flag,
an optional duck-typed `roles` attribute (`none` models `hasattr`
returning false) and an optional `is_superuser` attribute. -/
structure User where
  is_authenticated : Bool := true
  roles : Option RolesAttr := none
  is_superuser : Option Bool := none

/-- `get_user_roles`: an existing `roles` attribute is resolved and used
as-is (a string becomes a one-element list, any other iterable is
listed); otherwise a set `is_superuser` flag yields `["superadmin"]`;
otherwise the default role for `"new_user"`. -/
def get_user_roles (cfg : Config) (user : User) : List String :=
  match user.roles with
  | some attr =>
      match attr.resolve with
      | .str s => [s]
      | .list names => names
  | none =>
      if user.is_superuser.getD false then ["superadmin"]
      else [get_default_role cfg]

/-- `has_permission`: false for a missing or unauthenticated user,
otherwise `check_permission` over `get_user_roles`. -/
def has_permission (cfg : Config) (user : Option User) (permission : String) : Bool :=
  match user with
  | none => false
  | some u =>
      if !u.is_authenticated then false
      else check_permission cfg (get_user_roles cfg u) permission

/-- A request as the decorator's wrapper sees it. -/
structure Request where
  user : Option User := none

/-- The outcome of a guarded view call: the forbidden response produced
by the guard, or whatever response the view returns. -/
inductive Response
  | forbidden (message : String)
  | ok (body : String)

/-- `require_permission(permission)` applied to a view `func` and a
`request`: return `HttpResponseForbidden` unless `has_permission` holds
for `request.user`, else call the view and return its response
unchanged. -/
def require_permission (cfg : Config) (permission : String)
    (func : Request → Response) (request : Request) : Response :=
  if !has_permission cfg request.user permission then
    Response.forbidden ("Permission denied: " ++ permission)
  else func request

/-- A parsed configuration document as `yaml.safe_load` may return it:
a top-level mapping with well-formed sections, or a non-mapping scalar
on which the attribute accesses of `_build_permission_cache` fail. -/
inductive ParsedDoc
  | mapping (cfg : Config)
  | scalar (text : String)

/-- What reading `roles.yaml` can yield: a missing file, unparsable
content, or a parsed document. -/
inductive ConfigSource
  | missing
  | unparsable
  | parsed (doc : ParsedDoc)

/-- The mutable attributes of the `PolicyEngine` singleton:
`self._config` and `self._permission_cache`. -/
structure EngineState where
  config : Option ParsedDoc := none
  permission_cache : List (String × Finset String) := []

/-- `PolicyEngine._build_permission_cache` on a parsed document: raises
(Python `AttributeError`) when the document is not a mapping, before
any cache entry is written; otherwise builds the full cache. -/
def build_cache_of : ParsedDoc → Except String (List (String × Finset String))
  | .scalar _ => .error "AttributeError"
  | .mapping cfg => .ok (permission_cache cfg)

/-- `PolicyEngine._load_config` as a state transition. A missing file
(`FileNotFoundError`) or a `yaml.safe_load` failure raises before
`self._config` is assigned, leaving both attributes untouched. A parsed
document is first stored in `self._config`, then
`self._permission_cache` is reset to `{}`, and only then is the cache
rebuilt — so a build failure leaves the new document installed with an
emptied cache; on success the rebuilt cache is installed. The first
component is the raised error, when any. -/
def load_config (st : EngineState) (source : ConfigSource) :
    Except String Unit × EngineState :=
  match source with
  | .missing => (.error "FileNotFoundError", st)
  | .unparsable => (.error "ParseError", st)
  | .parsed doc =>
      match build_cache_of doc with
      | .error e => (.error e, { config := some doc, permission_cache := [] })
      | .ok cache => (.ok (), { config := some doc, permission_cache := cache })

/-- The engine state reached by a successful load of a mapping. -/
def loadedState (cfg : Config) : EngineState :=
  { config := some (ParsedDoc.mapping cfg), permission_cache := permission_cache cfg }

/-- The three-role chain of the specification: `admin` inherits
`editor`, `editor` inherits `viewer`, `viewer` holds `"blog:read"`. -/
def chainConfig : Config where
  roles := [("admin", { description := "Administrator" }),
            ("editor", { description := "Editor",
                         permissions := ["blog:publish", "blog:edit"] }),
            ("viewer", { description := "Viewer", permissions := ["blog:read"] })]
  hierarchy := [("admin", ["editor"]), ("editor", ["viewer"])]
  defaults := [("new_user", "viewer")]

/-- A ranking of `chainConfig`'s roles witnessing acyclicity. -/
def chainRank (r : String) : Nat :=
  if r = "admin" then 2 else if r = "editor" then 1 else 0

/-- A cyclic two-role hierarchy: `A` inherits `B` and `B` inherits `A`. -/
def cycleConfig : Config where
  roles := [("A", { permissions := ["alpha:read"] }),
            ("B", { permissions := ["beta:read"] })]
  hierarchy := [("A", ["B"]), ("B", ["A"])]

/-- An acyclic configuration whose declared role `top` inherits through
the undeclared role `mid` from the declared role `base`. -/
def gapConfig : Config where
  roles := [("top", { permissions := [] }),
            ("base", { permissions := ["blog:read"] })]
  hierarchy := [("top", ["mid"]), ("mid", ["base"])]

/-- Configuration for the role-extraction counterexample: one declared
role `member` holding `blog:read`, which is also the `new_user`
default. -/
def memberConfig : Config where
  roles := [("member", { permissions := ["blog:read"] })]
  defaults := [("new_user", "member")]

/-- Acyclicity witness for a hierarchy: a rank function under which
every parent listed in a hierarchy entry ranks strictly below the child
listing it. A finite graph admits such a ranking iff it has no directed
cycle. -/
def IsRanked (cfg : Config) (rank : String → Nat) : Prop :=
  ∀ entry ∈ cfg.hierarchy, ∀ p ∈ entry.2, rank p < rank entry.1

theorem inherited_permissions_congr {cfg : Config} {parents : List String}
    {v₁ v₂ : Finset String}
    (h : ∀ p ∈ parents, get_all_permissions cfg p v₁ = get_all_permissions cfg p v₂) :
    inherited_permissions cfg parents v₁ = inherited_permissions cfg parents v₂ := by
  induction parents with
  | nil => rw [inherited_permissions_nil, inherited_permissions_nil]
  | cons p rest ih =>
      rw [inherited_permissions_cons, inherited_permissions_cons,
        h p (List.mem_cons_self _ _), ih (fun q hq => h q (List.mem_cons_of_mem _ hq))]

/-- On an acyclic hierarchy the `visited` set is irrelevant as long as
it only holds roles of strictly larger rank than the resolved role:
the guard never truncates anything actually reachable. -/
theorem get_all_permissions_visited_irrel {cfg : Config} {rank : String → Nat}
    (hr : IsRanked cfg rank) :
    ∀ (n : Nat) (r : String) (v₁ v₂ : Finset String), rank r ≤ n →
      (∀ x ∈ v₁, rank r < rank x) → (∀ x ∈ v₂, rank r < rank x) →
      get_all_permissions cfg r v₁ = get_all_permissions cfg r v₂ := by
  intro n
  induction n using Nat.strong_induction_on with
  | _ n ih =>
      intro r v₁ v₂ hn h₁ h₂
      have hv₁ : r ∉ v₁ := fun hx => lt_irrefl _ (h₁ r hx)
      have hv₂ : r ∉ v₂ := fun hx => lt_irrefl _ (h₂ r hx)
      rw [get_all_permissions_of_not_mem hv₁, get_all_permissions_of_not_mem hv₂]
      cases hl : List.lookup r cfg.hierarchy with
      | none => simp only [Option.getD_none, inherited_permissions_nil]
      | some parents =>
          congr 1
          apply inherited_permissions_congr
          intro p hp
          have hpr : rank p < rank r := hr _ (mem_of_lookup_eq_some hl) p hp
          refine ih (rank p) (by omega) p _ _ (le_refl _) ?_ ?_
          · intro x hx
            rcases Finset.mem_insert.mp hx with hx | hx
            · exact hx ▸ hpr
            · exact lt_trans hpr (h₁ x hx)
          · intro x hx
            rcases Finset.mem_insert.mp hx with hx | hx
            · exact hx ▸ hpr
            · exact lt_trans hpr (h₂ x hx)

/-- Union of a list of permission sets. -/
def union_list (l : List (Finset String)) : Finset String :=
  l.foldr (· ∪ ·) ∅

/-- The list of parents a role inherits from:
`hierarchy[role_name].get("inherits", [])` when the entry exists, else
the empty list. -/
def inherits_of (cfg : Config) (r : String) : List String :=
  (List.lookup r cfg.hierarchy).getD []

theorem inherited_eq_union_list (cfg : Config) (parents : List String) (v : Finset String) :
    inherited_permissions cfg parents v =
      union_list (parents.map (fun p => get_all_permissions cfg p v)) := by
  induction parents with
  | nil => rw [inherited_permissions_nil]; rfl
  | cons p rest ih =>
      rw [inherited_permissions_cons, ih]
      rfl

/-- On an acyclic hierarchy the resolver satisfies the inheritance
recurrence at every role name, declared or not. -/
theorem resolve_eq_direct_union_parents {cfg : Config} {rank : String → Nat}
    (hr : IsRanked cfg rank) (r : String) :
    get_all_permissions cfg r ∅ =
      direct_permissions cfg r ∪
        union_list ((inherits_of cfg r).map (fun p => get_all_permissions cfg p ∅)) := by
  rw [get_all_permissions_of_not_mem (Finset.not_mem_empty r)]
  rw [inherited_eq_union_list]
  congr 1
  refine congrArg union_list (List.map_congr_left ?_)
  intro p hp
  rcases hl : List.lookup r cfg.hierarchy with _ | parents
  · simp only [inherits_of, hl, Option.getD_none, List.not_mem_nil] at hp
  · have hps : p ∈ parents := by
      simpa only [inherits_of, hl, Option.getD_some] using hp
    have hpr : rank p < rank r := hr _ (mem_of_lookup_eq_some hl) p hps
    refine get_all_permissions_visited_irrel hr (rank p) p _ _ (le_refl _) ?_ ?_
    · intro x hx
      rcases Finset.mem_insert.mp hx with hx | hx
      · exact hx ▸ hpr
      · exact absurd hx (Finset.not_mem_empty x)
    · intro x hx
      exact absurd hx (Finset.not_mem_empty x)

theorem get_role_permissions_eq_fuel_fun (cfg : Config) :
    get_role_permissions cfg =
      fun role => (List.lookup role (permission_cache_fuel cfg)).getD ∅ :=
  funext (get_role_permissions_eq_fuel cfg)

/-- Rank witnessing acyclicity of `gapConfig`. -/
def gapRank (r : String) : Nat :=
  if r = "top" then 2 else if r = "mid" then 1 else 0

/-- `chainConfig` with `viewer`'s `"blog:read"` permission removed. -/
def noReadConfig : Config where
  roles := [("admin", { description := "Administrator" }),
            ("editor", { description := "Editor",
                         permissions := ["blog:publish", "blog:edit"] }),
            ("viewer", { description := "Viewer" })]
  hierarchy := [("admin", ["editor"]), ("editor", ["viewer"])]
  defaults := [("new_user", "viewer")]

/-- An authenticated user whose `roles` attribute is the empty list. -/
def emptyRolesUser : User := { roles := some (RolesAttr.value (RolesValue.list [])) }

/-- An authenticated superuser carrying an explicit one-role list. -/
def superEditorUser : User :=
  { roles := some (RolesAttr.value (RolesValue.list ["editor"])), is_superuser := some true }

/-- An authenticated user exposing neither `roles` nor `is_superuser`. -/
def anonymousRolesUser : User := {}

/-- A request whose user carries exactly the `viewer` role. -/
def viewerRequest : Request :=
  { user := some { roles := some (RolesAttr.value (RolesValue.list ["viewer"])) } }

/-- C1, counterexample: `gapConfig` is acyclic and `top` is declared,
yet `getRolePermissions("top")` (which resolves through the undeclared
parent `mid` down to `base`) differs from `top`'s direct permissions
united with `getRolePermissions` of its listed parents, because
`getRolePermissions("mid")` is the empty set for the undeclared `mid`. -/
theorem c1_inheritance_equation_cex :
    IsRanked gapConfig gapRank
  ∧ "top" ∈ gapConfig.roles.map Prod.fst
  ∧ get_role_permissions gapConfig "top" ≠
      direct_permissions gapConfig "top" ∪
        union_list ((inherits_of gapConfig "top").map (get_role_permissions gapConfig)) := by
  refine ⟨by unfold IsRanked; decide, by decide, ?_⟩
  rw [get_role_permissions_eq_fuel_fun gapConfig]
  decide

/-- C1 (amended): for every configuration whose hierarchy is acyclic
(witnessed by a rank function) and every declared role `r` all of whose
listed parents are themselves declared, `getRolePermissions(r)` equals
the union of `r`'s direct permissions and `getRolePermissions(p)` over
the parents `p` listed for `r`; for every declared role with no
hierarchy entry it equals exactly the declared direct permissions; and
in the three-role chain `admin → editor → viewer` with `viewer` holding
`"blog:read"`, `checkPermission(["admin"], "blog:read")` is true. -/
theorem c1_inheritance_equation :
    (∀ (cfg : Config) (rank : String → Nat), IsRanked cfg rank →
      ∀ r ∈ cfg.roles.map Prod.fst,
        (∀ p ∈ inherits_of cfg r, p ∈ cfg.roles.map Prod.fst) →
        get_role_permissions cfg r =
          direct_permissions cfg r ∪
            union_list ((inherits_of cfg r).map (get_role_permissions cfg)))
  ∧ (∀ (cfg : Config), ∀ r ∈ cfg.roles.map Prod.fst,
      List.lookup r cfg.hierarchy = none →
      get_role_permissions cfg r = direct_permissions cfg r)
  ∧ check_permission chainConfig ["admin"] "blog:read" = true := by
  refine ⟨?_, ?_, ?_⟩
  · intro cfg rank hr r hrdecl hpar
    rw [get_role_permissions_of_mem hrdecl, resolve_eq_direct_union_parents hr r]
    congr 1
    refine congrArg union_list (List.map_congr_left ?_)
    intro p hp
    exact (get_role_permissions_of_mem (hpar p hp)).symm
  · intro cfg r hrdecl hl
    rw [get_role_permissions_of_mem hrdecl,
      get_all_permissions_of_not_mem (Finset.not_mem_empty r)]
    simp only [hl, Option.getD_none, inherited_permissions_nil, Finset.union_empty]
  · rw [check_permission_eq_fuel]
    decide

/-- Witness for C1 at the three-role chain, rank `admin=2, editor=1,
viewer=0`. -/
theorem c1_inheritance_equation_witness :
    get_role_permissions chainConfig "admin" =
      direct_permissions chainConfig "admin" ∪
        union_list ((inherits_of chainConfig "admin").map (get_role_permissions chainConfig)) :=
  c1_inheritance_equation.1 chainConfig chainRank (by unfold IsRanked; decide) "admin"
    (by decide) (by decide)

/-- C2: `_matches_permission` agrees everywhere with the OR of the four
match cases of the specification, and on the concrete examples: `"*:*"`
matches every pair, `"blog:*"` matches module `blog` with any action
but no other module, and `"blog:a,b"` matches exactly actions `a` and
`b`. -/
theorem c2_matches_permission_spec_equiv :
    (∀ rule module action : String,
      matches_permission rule module action = matches_permission_spec rule module action)
  ∧ (∀ module action : String, matches_permission "*:*" module action = true)
  ∧ (∀ action : String, matches_permission "blog:*" "blog" action = true)
  ∧ (∀ action : String, matches_permission "blog:*" "shop" action = false)
  ∧ matches_permission "blog:a,b" "blog" "a" = true
  ∧ matches_permission "blog:a,b" "blog" "b" = true
  ∧ matches_permission "blog:a,b" "blog" "c" = false := by
  refine ⟨?_, ?_, ?_, ?_, by decide, by decide, by decide⟩
  · intro rule module action
    unfold matches_permission matches_permission_spec
    cases h1 : (parse_permission rule).1 == "*" <;>
      cases h2 : (parse_permission rule).2 == "*" <;>
        cases h3 : (parse_permission rule).1 == module <;>
          cases h4 : (parse_permission rule).2 == action <;>
            simp [h1, h2, h3, h4]
  · intro module action
    have hp : parse_permission "*:*" = ("*", "*") := rfl
    simp [matches_permission, hp]
  · intro action
    have hp : parse_permission "blog:*" = ("blog", "*") := rfl
    simp [matches_permission, hp]
  · intro action
    have hp : parse_permission "blog:*" = ("blog", "*") := rfl
    simp [matches_permission, hp]

/-- C3, counterexample: for an authenticated identity whose `roles`
attribute is the empty list, `get_user_roles` returns the empty list —
not the `new_user` default — so the default-granted permission is
denied; and a superuser with an explicit role list does not receive
`superadmin`. -/
theorem c3_role_substitution_cex :
    get_user_roles memberConfig emptyRolesUser = []
  ∧ get_user_roles memberConfig emptyRolesUser ≠ [get_default_role memberConfig "new_user"]
  ∧ has_permission memberConfig (some emptyRolesUser) "blog:read" = false
  ∧ check_permission memberConfig [get_default_role memberConfig "new_user"] "blog:read" = true
  ∧ "superadmin" ∉ get_user_roles memberConfig superEditorUser := by
  refine ⟨rfl, by decide, rfl, ?_, by decide⟩
  rw [check_permission_eq_fuel]
  decide

/-- C3 (amended): the `new_user` default role is substituted only when
the identity exposes no `roles` attribute and no truthy `is_superuser`
flag; `superadmin` is used (as the entire role list) only when the
identity exposes no `roles` attribute and is flagged superuser; an
existing `roles` attribute is used as-is — an empty list stays empty
and the superuser flag is ignored. -/
theorem c3_role_substitution (cfg : Config) (user : User) :
    (user.roles = none → user.is_superuser.getD false = false →
      get_user_roles cfg user = [get_default_role cfg "new_user"])
  ∧ (user.roles = none → user.is_superuser.getD false = true →
      get_user_roles cfg user = ["superadmin"])
  ∧ (∀ attr, user.roles = some attr →
      get_user_roles cfg user = get_user_roles cfg { user with is_superuser := none })
  ∧ (user.roles = some (RolesAttr.value (RolesValue.list [])) →
      get_user_roles cfg user = []) := by
  refine ⟨?_, ?_, ?_, ?_⟩
  · intro h1 h2
    simp [get_user_roles, h1, h2]
  · intro h1 h2
    simp [get_user_roles, h1, h2]
  · intro attr h
    simp [get_user_roles, h]
  · intro h
    simp [get_user_roles, h, RolesAttr.resolve]

/-- Witness for C3 at a user with no `roles` attribute. -/
theorem c3_role_substitution_witness :
    get_user_roles memberConfig anonymousRolesUser =
      [get_default_role memberConfig "new_user"] :=
  (c3_role_substitution memberConfig anonymousRolesUser).1 rfl rfl

/-- C4: an undeclared role resolves to the empty permission set without
error, a check whose roles are all undeclared returns false rather than
raising, and concretely `checkPermission(["ghost"], "blog:read")` is
false on the three-role chain. -/
theorem c4_unknown_role_safe :
    (∀ (cfg : Config) (r : String), r ∉ cfg.roles.map Prod.fst →
      get_role_permissions cfg r = ∅)
  ∧ (∀ (cfg : Config) (user_roles : List String) (permission : String),
      (∀ r ∈ user_roles, r ∉ cfg.roles.map Prod.fst) →
      check_permission cfg user_roles permission = false)
  ∧ check_permission chainConfig ["ghost"] "blog:read" = false := by
  refine ⟨fun cfg r h => get_role_permissions_of_not_mem h, ?_, ?_⟩
  · intro cfg user_roles permission h
    rw [check_permission, check_permission_cache, List.any_eq_false]
    intro role hrole
    have hnone : List.lookup role (permission_cache cfg) = none := by
      rw [permission_cache]
      exact lookup_map_fst_eq_none (fun n => get_all_permissions cfg n ∅) cfg.roles role
        (h role hrole)
    simp [hnone]
  · rw [check_permission_eq_fuel]
    decide

/-- Witness for C4 on the three-role chain with the undeclared role
`ghost`. -/
theorem c4_unknown_role_safe_witness :
    get_role_permissions chainConfig "ghost" = ∅
  ∧ check_permission chainConfig ["ghost", "phantom"] "blog:read" = false :=
  ⟨c4_unknown_role_safe.1 chainConfig "ghost" (by decide),
   c4_unknown_role_safe.2.1 chainConfig ["ghost", "phantom"] "blog:read" (by decide)⟩

/-- C5: the visited-set guard makes a branch that reaches an
already-visited role contribute the empty set, the resolution of every
role at every configuration — cyclic ones included — is the stable
value of the step-indexed resolver for all sufficiently large depths
(termination at finite depth, no error), and on the two-role cycle
`A ↔ B` both roles resolve to the union of both direct sets. -/
theorem c5_resolution_terminates :
    (∀ (cfg : Config) (r : String) (visited : Finset String), r ∈ visited →
      get_all_permissions cfg r visited = ∅)
  ∧ (∀ (cfg : Config) (fuel : Nat) (r : String), cacheFuel cfg ≤ fuel →
      get_all_permissions_fuel cfg fuel r ∅ = get_all_permissions cfg r ∅)
  ∧ get_role_permissions cycleConfig "A" = {"alpha:read", "beta:read"}
  ∧ get_role_permissions cycleConfig "B" = {"alpha:read", "beta:read"} := by
  refine ⟨fun cfg r v hv => get_all_permissions_of_mem hv, ?_, ?_, ?_⟩
  · intro cfg fuel r hf
    apply get_all_permissions_fuel_eq
    rw [Finset.sdiff_empty]
    unfold cacheFuel at hf
    omega
  · rw [get_role_permissions_eq_fuel]
    decide
  · rw [get_role_permissions_eq_fuel]
    decide

/-- Witness for C5 on the cyclic configuration. -/
theorem c5_resolution_terminates_witness :
    get_all_permissions cycleConfig "A" {"A"} = ∅
  ∧ get_all_permissions_fuel cycleConfig 7 "A" ∅ = get_all_permissions cycleConfig "A" ∅ :=
  ⟨c5_resolution_terminates.1 cycleConfig "A" {"A"} (by decide),
   c5_resolution_terminates.2.1 cycleConfig 7 "A" (by decide)⟩

/-- C6, counterexample: starting from the engine state loaded from the
three-role chain, a reload whose source parses to a non-mapping scalar
surfaces an error, but afterwards `checkPermission(["viewer"],
"blog:read")` evaluates over the emptied cache to false where it was
true before — the previous snapshot does not stay in effect. -/
theorem c6_reload_atomicity_cex :
    (load_config (loadedState chainConfig) (ConfigSource.parsed (ParsedDoc.scalar "oops"))).1 =
      Except.error "AttributeError"
  ∧ check_permission_cache (loadedState chainConfig).permission_cache
      ["viewer"] "blog:read" = true
  ∧ check_permission_cache
      (load_config (loadedState chainConfig)
        (ConfigSource.parsed (ParsedDoc.scalar "oops"))).2.permission_cache
      ["viewer"] "blog:read" = false := by
  refine ⟨rfl, ?_, rfl⟩
  show check_permission_cache (permission_cache chainConfig) ["viewer"] "blog:read" = true
  rw [permission_cache_eq_fuel]
  decide

/-- C6 (amended): a reload that fails while reading or parsing the
source (missing file, `yaml` error) leaves both engine attributes
untouched and surfaces the error; a reload whose document parses but is
not a mapping surfaces the error yet installs the new document with an
emptied cache (no atomicity in that mode); a successful reload installs
the fully rebuilt cache, so subsequent checks coincide with
`check_permission` of the new configuration — concretely, after
reloading the chain configuration with `viewer`'s `"blog:read"`
removed, the check returns false (no stale-cache leakage). -/
theorem c6_reload_atomicity :
    (∀ st : EngineState,
      load_config st ConfigSource.missing = (Except.error "FileNotFoundError", st)
    ∧ load_config st ConfigSource.unparsable = (Except.error "ParseError", st))
  ∧ (∀ (st : EngineState) (text : String),
      load_config st (ConfigSource.parsed (ParsedDoc.scalar text)) =
        (Except.error "AttributeError",
          { config := some (ParsedDoc.scalar text), permission_cache := [] }))
  ∧ (∀ (st : EngineState) (cfg : Config) (user_roles : List String) (permission : String),
      load_config st (ConfigSource.parsed (ParsedDoc.mapping cfg)) =
        (Except.ok (), { config := some (ParsedDoc.mapping cfg),
                         permission_cache := permission_cache cfg })
    ∧ check_permission_cache
        (load_config st (ConfigSource.parsed (ParsedDoc.mapping cfg))).2.permission_cache
        user_roles permission = check_permission cfg user_roles permission)
  ∧ check_permission_cache
      (load_config (loadedState chainConfig)
        (ConfigSource.parsed (ParsedDoc.mapping noReadConfig))).2.permission_cache
      ["viewer"] "blog:read" = false := by
  refine ⟨fun st => ⟨rfl, rfl⟩, fun st text => rfl,
    fun st cfg user_roles permission => ⟨rfl, rfl⟩, ?_⟩
  show check_permission_cache (permission_cache noReadConfig) ["viewer"] "blog:read" = false
  rw [permission_cache_eq_fuel]
  decide

/-- C7: the guard built by `require_permission` returns the wrapped
view's response unchanged when the authorization check passes, and
returns the forbidden response — with a result independent of the
wrapped view, which is therefore never invoked — when it fails. -/
theorem c7_guard (cfg : Config) (permission : String) (request : Request)
    (func : Request → Response) :
    (has_permission cfg request.user permission = true →
      require_permission cfg permission func request = func request)
  ∧ (has_permission cfg request.user permission = false →
      require_permission cfg permission func request =
        Response.forbidden ("Permission denied: " ++ permission)
      ∧ ∀ g : Request → Response,
          require_permission cfg permission func request =
            require_permission cfg permission g request) := by
  constructor
  · intro h
    simp [require_permission, h]
  · intro h
    refine ⟨by simp [require_permission, h], fun g => by simp [require_permission, h]⟩

/-- Witness for C7: a viewer-role request passes the `blog:read` guard
and receives the view's response unchanged. -/
theorem c7_guard_witness :
    require_permission chainConfig "blog:read" (fun _ => Response.ok "post") viewerRequest =
      (fun _ => Response.ok "post") viewerRequest :=
  (c7_guard chainConfig "blog:read" viewerRequest (fun _ => Response.ok "post")).1 (by
    rw [show has_permission chainConfig viewerRequest.user "blog:read" =
        check_permission chainConfig ["viewer"] "blog:read" from rfl,
      check_permission_eq_fuel]
    decide)

/-- C8: the key list of the permission cache is exactly the list of
role names declared under `roles`; every read operation of the engine
is a pure function of the loaded configuration, so none alters the
cache or the configuration. -/
theorem c8_cache_keys (cfg : Config) :
    (permission_cache cfg).map Prod.fst = cfg.roles.map Prod.fst := by
  unfold permission_cache
  rw [List.map_map]
  rfl

/-- C9: for every declared role — cyclic hierarchies included — the
declared direct permissions are contained in the resolved set. -/
theorem c9_direct_subset :
    ∀ (cfg : Config), ∀ r ∈ cfg.roles.map Prod.fst,
      direct_permissions cfg r ⊆ get_role_permissions cfg r := by
  intro cfg r h
  rw [get_role_permissions_of_mem h,
    get_all_permissions_of_not_mem (Finset.not_mem_empty r)]
  exact Finset.subset_union_left

/-- Witness for C9 on the cyclic configuration's role `A`. -/
theorem c9_direct_subset_witness :
    direct_permissions cycleConfig "A" ⊆ get_role_permissions cycleConfig "A" :=
  c9_direct_subset cycleConfig "A" (by decide)

/-- C10: a `roles` attribute that is (or, when callable, returns) a
single string `s` yields the one-element role list `[s]` — the same
list a one-role list attribute yields — not the string's characters. -/
theorem c10_string_roles (cfg : Config) (auth : Bool) (su : Option Bool) (s : String) :
    get_user_roles cfg ⟨auth, some (RolesAttr.value (RolesValue.str s)), su⟩ = [s]
  ∧ get_user_roles cfg ⟨auth, some (RolesAttr.callable fun _ => RolesValue.str s), su⟩ = [s]
  ∧ get_user_roles cfg ⟨auth, some (RolesAttr.value (RolesValue.str s)), su⟩ =
      get_user_roles cfg ⟨auth, some (RolesAttr.value (RolesValue.list [s])), su⟩ :=
  ⟨rfl, rfl, rfl⟩

end Policy
